import Mathlib

/-!
Verification development for the anansi opportunity-aggregation pipeline.

The Python sources `normalizer.py`, `aggregator.py` and `post_slack.py` are
embedded shallowly below: machine floats are modelled as exact rationals,
Python dicts become structures, the ambient wall clock becomes an explicit
`now : Date` parameter, and the external `dateutil` parser is modelled as a
strict ISO `YYYY-MM-DD` parser (every date string the pipeline itself
produces is of that shape; all other strings are treated as unparseable).
`hashlib.sha1` is embedded as a full SHA-1 implementation over UTF-8 bytes.
-/

namespace Anansi

/-! ## Python string primitives -/

/-- Whitespace characters recognised by Python `str.strip` and the regex
class used by the normalizer's whitespace-collapsing substitution. -/
def isPySpace (c : Char) : Bool :=
  c = ' ' || c = '\t' || c = '\n' || c = '\r' || c = '\x0b' || c = '\x0c'

/-- Strip characters satisfying `junk` from both ends of a character list. -/
def stripWhile (junk : Char → Bool) (cs : List Char) : List Char :=
  ((cs.dropWhile junk).reverse.dropWhile junk).reverse

/-- Python `str.strip()` (whitespace on both ends). -/
def pyStrip (s : String) : String :=
  String.mk (stripWhile isPySpace s.data)

/-- Python `str.strip(chars)` for an explicit character set. -/
def pyStripSet (set : List Char) (s : String) : String :=
  String.mk (stripWhile (fun c => set.contains c) s.data)

/-- Character-by-character whitespace collapsing; the flag records whether
the previous character also belonged to the current whitespace run. -/
def collapseAux : Bool → List Char → List Char
  | _, [] => []
  | inRun, c :: cs =>
    if isPySpace c then
      if inRun then collapseAux true cs else ' ' :: collapseAux true cs
    else
      c :: collapseAux false cs

/-- Collapse every maximal run of whitespace to a single space
(the normalizer's `WHITESPACE.sub(" ", t)`). -/
def collapseWS (cs : List Char) : List Char :=
  collapseAux false cs

/-- Python `str.lower()` on the ASCII fragment used by the pipeline. -/
def pyLower (s : String) : String :=
  String.mk (s.data.map Char.toLower)

/-- Word characters for the regex `\b` boundary semantics. -/
def isWordChar (c : Char) : Bool :=
  c.isAlpha || c.isDigit || c = '_'

/-- Whether position `j` of `text` holds a word character
(out-of-range counts as non-word, matching regex semantics). -/
def wordCharAt (text : List Char) (j : Nat) : Bool :=
  match text.drop j with
  | [] => false
  | c :: _ => isWordChar c

/-- Regex word boundary `\b` between positions `p-1` and `p`. -/
def boundaryAt (text : List Char) (p : Nat) : Bool :=
  (if p = 0 then false else wordCharAt text (p - 1)) != wordCharAt text p

/-- Literal match of `pat` at position `i` of `text`. -/
def matchesAt (text pat : List Char) (i : Nat) : Bool :=
  List.isPrefixOf pat (text.drop i)

/-- Occurrence of the literal token `pat` somewhere in `text` with a word
boundary on both sides, as in the regex `\b pat \b`. -/
def hasWordToken (text pat : List Char) : Bool :=
  (List.range (text.length + 1)).any fun i =>
    matchesAt text pat i && boundaryAt text i && boundaryAt text (i + pat.length)

/-- Occurrence of the literal token `pat` with a word boundary after it only,
as in the regex `pat\b` (used by the `.css` / `.js` junk patterns). -/
def hasTokenTrailB (text pat : List Char) : Bool :=
  (List.range (text.length + 1)).any fun i =>
    matchesAt text pat i && boundaryAt text (i + pat.length)

/-- Plain substring occurrence (no boundaries). -/
def hasSub (text pat : List Char) : Bool :=
  (List.range (text.length + 1)).any fun i => matchesAt text pat i

/-! ## Dates

The pipeline stores dates as ISO `YYYY-MM-DD` strings; we embed them as
year/month/day triples. Ordering is by the numeral `y*10000 + m*100 + d`,
which on in-range dates agrees with calendar order. -/

structure Date where
  y : Nat
  m : Nat
  d : Nat
deriving DecidableEq, Repr

/-- Numeric encoding of a date; monotone in calendar order for valid dates. -/
def Date.num (dt : Date) : Nat := dt.y * 10000 + dt.m * 100 + dt.d

/-- Decimal value of a digit string. -/
def decVal (cs : List Char) : Nat :=
  cs.foldl (fun a c => a * 10 + (c.toNat - 48)) 0

/-- The decimal digit characters. -/
def digitChar (x : Nat) : Char :=
  "0123456789".data.getD x '0'

/-- Fixed-width zero-padded decimal rendering (`k` digits). -/
def decDigits : Nat → Nat → List Char
  | 0, _ => []
  | k + 1, n => decDigits k (n / 10) ++ [digitChar (n % 10)]

/-- ISO rendering `YYYY-MM-DD`, as produced by Python `date.isoformat()`. -/
def isoString (dt : Date) : String :=
  String.mk (decDigits 4 dt.y ++ '-' :: (decDigits 2 dt.m ++ '-' :: decDigits 2 dt.d))

/-- Split a character list on the dash character, keeping empty pieces. -/
def splitDash (cs : List Char) : List (List Char) :=
  cs.foldr
    (fun c acc =>
      if c = '-' then [] :: acc
      else
        match acc with
        | h :: tl => (c :: h) :: tl
        | [] => [[c]])
    [[]]

/-- Interpret the dash-separated pieces of a candidate ISO date string. -/
def parseParts : List (List Char) → Option Date
  | [ys, ms, ds] =>
    if ys.length = 4 && ms.length = 2 && ds.length = 2 &&
       ys.all Char.isDigit && ms.all Char.isDigit && ds.all Char.isDigit then
      if 1 ≤ decVal ys && decVal ys ≤ 9999 && 1 ≤ decVal ms && decVal ms ≤ 12 &&
         1 ≤ decVal ds && decVal ds ≤ 31 then
        some ⟨decVal ys, decVal ms, decVal ds⟩
      else none
    else none
  | _ => none

/-- Model of the external `dateutil.parser.parse(s).date()` call, restricted
to strict ISO `YYYY-MM-DD` input: every date string the pipeline itself
produces has this shape, and any other string is treated as unparseable. -/
def parseDate (s : String) : Option Date :=
  parseParts (splitDash s.data)

/-- Embedding of `_to_iso`: empty/absent input and unparseable input both
become `none`; a parsed date stands for its ISO string. -/
def toIso (s : Option String) : Option Date :=
  match s with
  | none => none
  | some str => if str = "" then none else parseDate str

/-! ## SHA-1 over UTF-8 bytes (embedding of `hashlib.sha1`) -/

/-- UTF-8 encoding of one character, as a list of byte values. -/
def utf8Char (c : Char) : List Nat :=
  let n := c.toNat
  if n < 128 then [n]
  else if n < 2048 then [192 + n / 64, 128 + n % 64]
  else if n < 65536 then [224 + n / 4096, 128 + (n / 64) % 64, 128 + n % 64]
  else [240 + n / 262144, 128 + (n / 4096) % 64, 128 + (n / 64) % 64, 128 + n % 64]

/-- UTF-8 encoding of a string. -/
def utf8Bytes (s : String) : List Nat :=
  (s.data.map utf8Char).flatten

/-- Rotate a 32-bit word left by `n` bits. -/
def rotl32 (x n : Nat) : Nat :=
  ((x <<< n) ||| (x >>> (32 - n))) % 4294967296

/-- SHA-1 round constants. -/
def sha1K (i : Nat) : Nat :=
  if i < 20 then 0x5A827999
  else if i < 40 then 0x6ED9EBA1
  else if i < 60 then 0x8F1BBCDC
  else 0xCA62C1D6

/-- SHA-1 round functions. -/
def sha1F (i b c d : Nat) : Nat :=
  if i < 20 then (b &&& c) ||| ((b ^^^ 0xFFFFFFFF) &&& d)
  else if i < 40 then b ^^^ c ^^^ d
  else if i < 60 then (b &&& c) ||| (b &&& d) ||| (c &&& d)
  else b ^^^ c ^^^ d

/-- Big-endian byte rendering of `n` in `k` bytes. -/
def beBytes : Nat → Nat → List Nat
  | 0, _ => []
  | k + 1, n => beBytes k (n / 256) ++ [n % 256]

/-- SHA-1 message padding: `0x80`, zeros to 56 mod 64, 64-bit bit length. -/
def sha1Pad (msg : List Nat) : List Nat :=
  let z := (120 - (msg.length + 1) % 64) % 64 % 64
  msg ++ [128] ++ List.replicate z 0 ++ beBytes 8 (msg.length * 8)

/-- Assemble one 32-bit word from four big-endian bytes. -/
def word32 (a b c d : Nat) : Nat :=
  ((a * 256 + b) * 256 + c) * 256 + d

/-- Split the first 64 bytes of a block into sixteen 32-bit words. -/
def blockWords : List Nat → List Nat
  | b0 :: b1 :: b2 :: b3 :: rest => word32 b0 b1 b2 b3 :: blockWords rest
  | _ => []

/-- Extend the 16-word schedule to 80 words (`fuel` additional words). -/
def sha1Extend (ws : List Nat) : Nat → List Nat
  | 0 => ws
  | fuel + 1 =>
    let n := ws.length
    let w := rotl32 ((ws.getD (n - 3) 0) ^^^ (ws.getD (n - 8) 0) ^^^
                    (ws.getD (n - 14) 0) ^^^ (ws.getD (n - 16) 0)) 1
    sha1Extend (ws ++ [w]) fuel

/-- The 80-round SHA-1 compression loop. -/
def sha1Loop (w : List Nat) (i : Nat) :
    Nat × Nat × Nat × Nat × Nat → Nat → Nat × Nat × Nat × Nat × Nat
  | st, 0 => st
  | (a, b, c, d, e), fuel + 1 =>
    let tmp := (rotl32 a 5 + sha1F i b c d + e + sha1K i + w.getD i 0) % 4294967296
    sha1Loop w (i + 1) (tmp, a, rotl32 b 30, c, d) fuel

/-- Compress one 64-byte block into the running state. -/
def sha1Compress (h : Nat × Nat × Nat × Nat × Nat) (block : List Nat) :
    Nat × Nat × Nat × Nat × Nat :=
  let w := sha1Extend (blockWords block) 64
  let (h0, h1, h2, h3, h4) := h
  let (a, b, c, d, e) := sha1Loop w 0 (h0, h1, h2, h3, h4) 80
  ((h0 + a) % 4294967296, (h1 + b) % 4294967296, (h2 + c) % 4294967296,
   (h3 + d) % 4294967296, (h4 + e) % 4294967296)

/-- Fold the compression over consecutive 64-byte blocks (`fuel` blocks). -/
def sha1Blocks (h : Nat × Nat × Nat × Nat × Nat) (bytes : List Nat) :
    Nat → Nat × Nat × Nat × Nat × Nat
  | 0 => h
  | fuel + 1 =>
    match bytes with
    | [] => h
    | _ => sha1Blocks (sha1Compress h (bytes.take 64)) (bytes.drop 64) fuel

/-- Hexadecimal digit characters. -/
def hexDigit (n : Nat) : Char :=
  if n < 10 then Char.ofNat (48 + n) else Char.ofNat (87 + n)

/-- Eight-hex-digit rendering of a 32-bit word. -/
def hex8 (n : Nat) : String :=
  String.mk ((List.range 8).map fun i => hexDigit ((n >>> (28 - 4 * i)) % 16))

/-- SHA-1 hex digest of a string, as `hashlib.sha1(s.encode()).hexdigest()`. -/
def sha1Hex (s : String) : String :=
  let bytes := sha1Pad (utf8Bytes s)
  let (h0, h1, h2, h3, h4) :=
    sha1Blocks (0x67452301, 0xEFCDAB89, 0x98BADCFE, 0x10325476, 0xC3D2E1F0)
      bytes (bytes.length / 64)
  hex8 h0 ++ hex8 h1 ++ hex8 h2 ++ hex8 h3 ++ hex8 h4

/-! ## Amount parser (embedding of `_norm_amount`)

Python floats are modelled as exact rationals; the claims never depend on
rounding, only on presence/absence and on `min`/`max` of at most two
values. -/

/-- Match one currency word of `\b(USD|EUR|GBP|MAD|CAD|AUD)\b` at `i`. -/
def curWordAt (text : List Char) (i : Nat) (w : List Char) : Bool :=
  matchesAt text w i && boundaryAt text i && boundaryAt text (i + w.length)

/-- The alternatives of the currency regex, tried in pattern order at one
position: the word branch first, then the symbol class. -/
def currencyAt (text : List Char) (i : Nat) : Option String :=
  if curWordAt text i ['U', 'S', 'D'] then some "USD"
  else if curWordAt text i ['E', 'U', 'R'] then some "EUR"
  else if curWordAt text i ['G', 'B', 'P'] then some "GBP"
  else if curWordAt text i ['M', 'A', 'D'] then some "MAD"
  else if curWordAt text i ['C', 'A', 'D'] then some "CAD"
  else if curWordAt text i ['A', 'U', 'D'] then some "AUD"
  else
    match text.drop i with
    | c :: _ =>
      if c = '€' then some "€" else if c = '$' then some "$"
      else if c = '£' then some "£" else none
    | [] => none

/-- Leftmost match of `re.search` for the currency pattern. -/
def currencySym (text : List Char) : Option String :=
  (List.range (text.length + 1)).findSome? (currencyAt text)

/-- The symbol-to-code map applied to the matched group. -/
def curMap (sym : String) : String :=
  if sym = "€" then "EUR" else if sym = "$" then "USD"
  else if sym = "£" then "GBP" else sym

/-- Currency extraction, the first half of `_norm_amount`. -/
def extractCurrency (text : String) : Option String :=
  (currencySym text.data).map curMap

/-- Continuation characters of the numeric-token regex `[\d][\d,\.]*`. -/
def isNumCont (c : Char) : Bool :=
  c.isDigit || c = ',' || c = '.'

/-- Scanner for the numeric-token regex: `cur` holds the reversed current
token while one is open. Only a digit can open a token, and a character
outside the continuation class always closes the open one. -/
def numAux : Option (List Char) → List Char → List (List Char)
  | cur, [] =>
    (match cur with
     | some t => [t.reverse]
     | none => [])
  | cur, c :: cs =>
    match cur with
    | some t =>
      if isNumCont c then numAux (some (c :: t)) cs
      else t.reverse :: numAux none cs
    | none =>
      if c.isDigit then numAux (some [c]) cs else numAux none cs

/-- The numeric tokens found by `re.findall(r"[\d][\d,\.]*", text)`:
maximal runs of digits, commas and dots starting with a digit. -/
def numTokens (cs : List Char) : List (List Char) :=
  numAux none cs

/-- Python `float(tok.replace(",", ""))` on a numeric token: commas are
dropped, and the literal is valid iff it has at most one dot. -/
def pyFloat (tok : List Char) : Option ℚ :=
  let t := tok.filter (fun c => c ≠ ',')
  if t.count '.' ≤ 1 then
    let ip := t.takeWhile Char.isDigit
    match t.dropWhile Char.isDigit with
    | [] => some ((decVal ip : ℚ))
    | _ :: frac => some ((decVal ip : ℚ) + (decVal frac : ℚ) / (10 : ℚ) ^ frac.length)
  else none

/-- Embedding of `_norm_amount`: best-effort `(min, max, currency)`. -/
def normAmount (text : Option String) : Option ℚ × Option ℚ × Option String :=
  match text with
  | none => (none, none, none)
  | some s =>
    if s = "" then (none, none, none)
    else
      let currency := extractCurrency s
      let nums := numTokens s.data
      if nums.isEmpty then (none, none, currency)
      else
        match (nums.take 2).filterMap pyFloat with
        | [] => (none, none, currency)
        | [v] => (some v, some v, currency)
        | v1 :: v2 :: _ => (some (min v1 v2), some (max v1 v2), currency)

/-! ## Theme classifier (embedding of `_themes_from`) -/

/-- The `TAG_TO_THEME` connector-tag table. -/
def tagToTheme (t : String) : Option String :=
  if t = "ai_digital" then some "Digital Governance"
  else if t = "anti_corruption" then some "Anti-Corruption"
  else if t = "civic_participation" then some "Civic Space"
  else if t = "budget" then some "Fiscal Openness"
  else if t = "justice" then some "Justice and Rule of Law"
  else if t = "governance" then some "Open Government"
  else none

/-- The `KW_TO_THEME` regexes, each expanded to its list of whole-word
alternatives (lower-cased; the regexes carry `re.I`). The char class
`journalis[m|t]` expands to the three literal alternatives it denotes. -/
def kwPatterns : List (List String × String) :=
  [(["media", "press", "journalism", "journalist", "journalis|", "broadcast"],
    "Media Freedom"),
   (["gender", "women", "girls", "gbv", "sgbv"], "Gender and Inclusion"),
   (["climate", "environment", "biodivers", "resilienc", "adaptation", "mitigation"],
    "Climate and Environment"),
   (["open data", "digital", "e-gov", "egov", "ict", "ai", "data", "cybersecurity"],
    "Digital Governance"),
   (["anti-corruption", "anticorruption", "integrity", "illicit", "brib",
     "procuremen", "transparen", "accountab"], "Anti-Corruption"),
   (["civic", "participation", "civil society", "freedom of assembly", "association"],
    "Civic Space"),
   (["budget", "public finance", "pfm", "audit", "revenue", "tax"], "Fiscal Openness"),
   (["justice", "rule of law", "court", "legal aid", "adr", "judici"],
    "Justice and Rule of Law"),
   (["governance", "open government", "accountable institution"], "Open Government")]

/-- Whether one keyword pattern matches the text. -/
def kwHit (text : List Char) (toks : List String) : Bool :=
  toks.any fun w => hasWordToken text w.data

/-- Embedding of `_themes_from`: connector tags first, then keywords over
`title + " " + country_scope` (an absent scope is rendered as the string
`None` by the f-string), then the default theme. -/
def themesFrom (title : String) (scope : Option String) (tags : List String) :
    List String :=
  match tags.findSome? tagToTheme with
  | some th => [th]
  | none =>
    let text := (pyLower (title ++ " " ++ (match scope with
      | none => "None"
      | some sc => sc))).data
    match kwPatterns.findSome? (fun p => if kwHit text p.1 then some p.2 else none) with
    | some th => [th]
    | none => ["Open Government"]

/-! ## Title cleaning (embedding of `_clean_title`)

The external `html.unescape` is modelled as the identity: no claim involves
HTML entities, and every concrete title exercised below is entity-free. -/

/-- The `TITLE_JUNK_PATTERNS` tests (all with `re.I`): `\.css\b`, `\.js\b`,
`site[-_ ]header`, and a whole-string `^\s*(home|menu|language)\s*$`. -/
def isJunkTitle (t : String) : Bool :=
  let low := (pyLower t).data
  hasTokenTrailB low ['.', 'c', 's', 's'] || hasTokenTrailB low ['.', 'j', 's'] ||
  hasSub low "site-header".data || hasSub low "site_header".data ||
  hasSub low "site header".data ||
  (let s := String.mk (stripWhile isPySpace low)
   s = "home" || s = "menu" || s = "language")

/-- Embedding of `_clean_title`. -/
def cleanTitle (t : String) : String :=
  if t = "" then ""
  else
    let t1 := pyStrip t
    if isJunkTitle t1 then ""
    else pyStripSet [' ', '-', '|', '>', ':', '–', '—'] (String.mk (collapseWS t1.data))

/-! ## Status derivation (embedding of `_status_from_dates`)

The Python function reads the wall clock itself (`datetime.now`); the
embedding makes that clock an explicit `now` argument, distinct from the
`today_utc` parameter of `normalize`. -/

/-- Embedding of `_status_from_dates`: re-parses the stored ISO deadline and
compares it with the wall-clock date. -/
def statusFromDates (now : Date) (deadline : Option Date) : Option String :=
  match deadline with
  | none => none
  | some dl =>
    match parseDate (isoString dl) with
    | none => none
    | some dd =>
      if now.num < dd.num then some "open"
      else if dd.num = now.num then some "open"
      else some "closed"

/-! ## Scope splitting (embedding of `_split_scope`) -/

/-- The separator class of `re.split(r"[;,/|]", val)`. -/
def isSep (c : Char) : Bool :=
  c = ';' || c = ',' || c = '/' || c = '|'

/-- Split a character list on separator characters (keeping empty pieces,
as `re.split` does). -/
def splitSeps (cs : List Char) : List (List Char) :=
  cs.foldr
    (fun c acc =>
      if isSep c then [] :: acc
      else
        match acc with
        | h :: tl => (c :: h) :: tl
        | [] => [[c]])
    [[]]

/-- Embedding of `_split_scope`. -/
def splitScope (val : Option String) : List String :=
  match val with
  | none => []
  | some v =>
    if v = "" then []
    else
      (splitSeps v.data).filterMap fun p =>
        let s := String.mk (stripWhile isPySpace (collapseWS p))
        if s = "" then none else some s

/-! ## Records -/

/-- A raw record as produced by a connector. `none` models an absent key or
a Python `None`; Python truthiness of strings is decided by emptiness. -/
structure RawOp where
  id : Option String := none
  title : Option String := none
  donor : Option String := none
  url : Option String := none
  deadline : Option String := none
  published_date : Option String := none
  status : Option String := none
  tags : List String := []
  country_scope : Option String := none
  amount : Option String := none
deriving DecidableEq, Repr

/-- A normalized record. The `deadline` and `published_date` fields stand
for their ISO strings (or Python `None`). -/
structure CanonOp where
  id : String
  title : String
  donor : String
  url : String
  deadline : Option Date
  published_date : Option Date
  status : Option String
  themes : List String
  country_scope : List String
  amount_min : Option ℚ
  amount_max : Option ℚ
  currency : Option String
  source_tags : List String
deriving DecidableEq, Repr

/-- The ISO string of a stored deadline, with `None` rendered as the empty
string (Python `deadline or ""`). -/
def isoOrEmpty (o : Option Date) : String :=
  match o with
  | some dl => isoString dl
  | none => ""

/-- Embedding of `_sha1`: join the truthy parts (each stripped) with `::`,
hash, and keep the first 16 hex characters. -/
def pySha1Trunc (parts : List String) : String :=
  (sha1Hex (String.intercalate "::" ((parts.filter fun p => p ≠ "").map pyStrip))).take 16

/-! ## The normalizer (embedding of `normalize`) -/

/-- The record-level `requireDeadline`/`futureOnly` filters of `normalize`
(lines 229-238): under `futureOnly` the stored ISO deadline is re-parsed
and the record is kept only when the parse succeeds and is strictly after
`today` (the `except` branch drops the record). -/
def keptByFilters (requireDeadline futureOnly : Bool) (today : Date)
    (deadline : Option Date) : Bool :=
  if requireDeadline && deadline.isNone then false
  else
    match futureOnly, deadline with
    | true, some dl =>
      match parseDate (isoString dl) with
      | some dd => decide (today.num < dd.num)
      | none => false
    | _, _ => true

/-- Loop state of `normalize`: the `seen_urls` and `seen_keys` sets and the
accumulated output (sets are modelled as lists, membership-faithfully). -/
structure NormState where
  seenUrls : List String
  seenKeys : List (String × String × String)
  out : List CanonOp
deriving DecidableEq, Repr

/-- The resolved donor of a raw record (`(r.get("donor") or "").strip() or
"Unknown"`). -/
def donorOf (r : RawOp) : String :=
  let donor0 := pyStrip (r.donor.getD "")
  if donor0 = "" then "Unknown" else donor0

/-- The canonical record built for one raw record (the per-record body of
the loop in `normalize`, lines 202-261; all bindings there are pure, so
they are hoisted into this function unchanged). -/
def canonOf (now : Date) (r : RawOp) : CanonOp :=
  let title := cleanTitle (r.title.getD "")
  let donor := donorOf r
  let url := pyStrip (r.url.getD "")
  let deadline := toIso r.deadline
  let am := normAmount r.amount
  let rid := r.id.getD ""
  { id :=
      if rid ≠ "" then rid
      else pySha1Trunc [donor, if url ≠ "" then url else title, isoOrEmpty deadline],
    title := title,
    donor := donor,
    url := url,
    deadline := deadline,
    published_date := toIso r.published_date,
    status :=
      match r.status with
      | some s => if s ≠ "" then some s else statusFromDates now deadline
      | none => statusFromDates now deadline,
    themes := themesFrom title r.country_scope r.tags,
    country_scope := splitScope r.country_scope,
    amount_min := am.1,
    amount_max := am.2.1,
    currency := am.2.2,
    source_tags := r.tags }

/-- The `(donor, norm title, deadline)` dedup key of a raw record
(lower-cased donor and title, `deadline or ""`). -/
def keyOf (r : RawOp) : String × String × String :=
  (pyLower (donorOf r), pyLower (cleanTitle (r.title.getD "")), isoOrEmpty (toIso r.deadline))

/-- One iteration of the record loop of `normalize`. Every `continue` of
the Python loop returns the state accumulated so far; in particular a
record dropped by the filters has already registered its URL. -/
def normStep (futureOnly requireDeadline : Bool) (today now : Date)
    (st : NormState) (r : RawOp) : NormState :=
  if cleanTitle (r.title.getD "") = "" then st
  else
    let url := pyStrip (r.url.getD "")
    if url ≠ "" && st.seenUrls.contains url then st
    else
      let st1 : NormState :=
        if url ≠ "" then { st with seenUrls := st.seenUrls ++ [url] } else st
      if !(keptByFilters requireDeadline futureOnly today (toIso r.deadline)) then st1
      else if st1.seenKeys.contains (keyOf r) then st1
      else
        { st1 with
            seenKeys := st1.seenKeys ++ [keyOf r],
            out := st1.out ++ [canonOf now r] }

/-- Deadline component of `sort_key`: a missing deadline becomes
`datetime.max.date()`, i.e. 9999-12-31. -/
def dKeyOf (o : Option Date) : Nat :=
  match o with
  | some dl => dl.num
  | none => Date.num ⟨9999, 12, 31⟩

/-- Published component of `sort_key`: the epoch-seconds value is replaced
by the order-isomorphic `Date.num` encoding; a missing published date
becomes `datetime.min.date()`, i.e. 0001-01-01. The negation mirrors the
`-int(p.strftime("%s"))` in the source. -/
def pKeyOf (o : Option Date) : Int :=
  match o with
  | some dl => -(dl.num : Int)
  | none => -(Date.num ⟨1, 1, 1⟩ : Int)

/-- The ascending comparison on `sort_key` tuples. -/
def sortLe (a b : CanonOp) : Bool :=
  decide (dKeyOf a.deadline < dKeyOf b.deadline ∨
    (dKeyOf a.deadline = dKeyOf b.deadline ∧
     pKeyOf a.published_date ≤ pKeyOf b.published_date))

/-- Stable insertion of `x` into `l`: `x` goes before the first element it
compares `le` to, so equal keys keep their input order. -/
def sInsert (le : α → α → Bool) (x : α) : List α → List α
  | [] => [x]
  | y :: l => if le x y then x :: y :: l else y :: sInsert le x l

/-- Stable sort; for a total preorder this computes the same list as
Python's stable `list.sort`. -/
def sSort (le : α → α → Bool) : List α → List α
  | [] => []
  | x :: l => sInsert le x (sSort le l)

/-- Embedding of `normalize`. The ambient `datetime.now` clock is the
explicit `now`; `today` is the optional `today_utc` argument defaulted to
`now`, exactly as in the source. -/
def normalize (futureOnly requireDeadline : Bool) (todayUtc : Option Date)
    (now : Date) (records : List RawOp) : List CanonOp :=
  let today := todayUtc.getD now
  sSort sortLe
    ((records.foldl (normStep futureOnly requireDeadline today now) ⟨[], [], []⟩).out)

/-! ## The pipeline driver (embedding of `aggregator.main`)

Fetching is outside the claims: `runMain` starts from the merged raw list.
The external Slack delivery either returns or raises; that outcome is the
explicit `publishOk` flag. `finalSeen` is the persisted ledger content
after the run (the state file is written only by `save_state`). -/

/-- Embedding of `_sig`: the driver's cross-run fingerprint. The f-string
renders a `None` deadline as the literal string `None`. -/
def sigOf (op : CanonOp) : String :=
  sha1Hex (op.title ++ "|" ++ op.url ++ "|" ++
    (match op.deadline with
     | some dl => isoString dl
     | none => "None") ++ "|" ++ op.donor)

/-- The driver's hard rule (aggregator lines 199-203): AFD/AfDB records
with no deadline are removed. -/
def afdbDrop (op : CanonOp) : Bool :=
  (op.donor = "AFD" || op.donor = "AfDB") && op.deadline.isNone

/-- Embedding of `_render_line`. -/
def renderLine (op : CanonOp) : String :=
  let title := if op.title = "" then "Untitled" else op.title
  let donor := if op.donor = "" then "Unknown" else op.donor
  let deadline :=
    match op.deadline with
    | some dl => isoString dl
    | none => "N/A"
  let theme :=
    match op.themes with
    | [] => "Open Government"
    | t :: _ => t
  let loc := String.intercalate " / " op.country_scope
  let pfx :=
    if loc ≠ "" && !((pyLower title).startsWith (pyLower loc)) then loc ++ " — " else ""
  "• <" ++ op.url ++ "|" ++ pfx ++ title ++ "> (" ++ donor ++ ") — deadline: " ++
    deadline ++ " — " ++ theme

/-- Outcome of one driver run. -/
structure RunOut where
  normalized : List CanonOp
  newItems : List CanonOp
  digest : Option (List String)
  delivered : Bool
  finalSeen : List String
  okExit : Bool
deriving DecidableEq, Repr

/-- The post-rule record set of a run: `normalize` (the driver passes no
`today_utc`) followed by the hard AFD/AfDB rule. -/
def normalizedOf (futureOnly requireDeadline : Bool) (now : Date)
    (raw : List RawOp) : List CanonOp :=
  (normalize futureOnly requireDeadline none now raw).filter fun op => !(afdbDrop op)

/-- The run's new items: post-rule records whose `_sig` fingerprint is not
in the loaded ledger. -/
def newItemsOf (futureOnly requireDeadline : Bool) (now : Date)
    (raw : List RawOp) (seen0 : List String) : List CanonOp :=
  (normalizedOf futureOnly requireDeadline now raw).filter fun op =>
    !(seen0.contains (sigOf op))

/-- The rendered digest: header, up to `capacity` item lines, and an
overflow line when more new items exist than fit. -/
def digestOf (maxLines : Nat) (now : Date) (items : List CanonOp) : List String :=
  let capacity := max 1 (maxLines - 1)
  ("*New funding opportunities (" ++ toString items.length ++ ")* — " ++ isoString now) ::
    (items.take capacity).map renderLine ++
    (if capacity < items.length then
      ["…and " ++ toString (items.length - capacity) ++ " more new items."]
    else [])

/-- Embedding of `aggregator.main` from the merge point on: normalize,
apply the hard AFD/AfDB rule, filter against the ledger by `_sig`, render
the bounded digest, publish, and persist the ledger only after a successful
publish. The persisted set is modelled as a list, membership-faithfully; on
any path that does not reach `save_state` the ledger file keeps its exact
prior content. -/
def runMain (futureOnly requireDeadline : Bool) (maxLines : Nat) (now : Date)
    (raw : List RawOp) (seen0 : List String) (publishOk : Bool) : RunOut :=
  if raw.isEmpty then ⟨[], [], none, false, seen0, true⟩
  else if (normalizedOf futureOnly requireDeadline now raw).isEmpty then
    ⟨normalizedOf futureOnly requireDeadline now raw, [], none, false, seen0, true⟩
  else if (newItemsOf futureOnly requireDeadline now raw seen0).isEmpty then
    ⟨normalizedOf futureOnly requireDeadline now raw, [], none, false, seen0, true⟩
  else if publishOk then
    ⟨normalizedOf futureOnly requireDeadline now raw,
     newItemsOf futureOnly requireDeadline now raw seen0,
     some (digestOf maxLines now (newItemsOf futureOnly requireDeadline now raw seen0)),
     true,
     seen0 ++ ((newItemsOf futureOnly requireDeadline now raw seen0).map sigOf).filter
       (fun s => !(seen0.contains s)),
     true⟩
  else
    ⟨normalizedOf futureOnly requireDeadline now raw,
     newItemsOf futureOnly requireDeadline now raw seen0,
     some (digestOf maxLines now (newItemsOf futureOnly requireDeadline now raw seen0)),
     false, seen0, false⟩

/-! ## Concrete fixtures used by the claim instances -/

def today0 : Date := ⟨2024, 6, 1⟩

def rawPast : RawOp :=
  { title := some "Past grant", donor := some "X",
    url := some "https://example.org/past", deadline := some "2024-05-01" }

def rawFuture : RawOp :=
  { title := some "Future grant", donor := some "X",
    url := some "https://example.org/future", deadline := some "2024-07-01" }

def rawSoonish : RawOp :=
  { title := some "Soonish grant", donor := some "X",
    url := some "https://example.org/soon", deadline := some "soon-ish" }

def rawMid : RawOp :=
  { title := some "Mid grant", donor := some "X",
    url := some "https://example.org/mid", deadline := some "2024-06-15" }

def rawNoDeadline : RawOp :=
  { title := some "Zebra grant", donor := some "X",
    url := some "https://example.org/z" }

def rawJunk : RawOp :=
  { title := some "nav.css", donor := some "X",
    url := some "https://example.org/junk" }

/-- Shares its URL with `rawPast` but has a future deadline. -/
def rawBeta : RawOp :=
  { title := some "Beta grant", donor := some "X",
    url := some "https://example.org/past", deadline := some "2024-07-01" }

def rawMax : RawOp :=
  { title := some "Max grant", donor := some "X",
    url := some "https://example.org/max", deadline := some "9999-12-31",
    published_date := some "2024-01-01" }

def rawNull : RawOp :=
  { title := some "Null grant", donor := some "X",
    url := some "https://example.org/null", published_date := some "2024-01-02" }

def rawAfd : RawOp :=
  { title := some "Afd grant", donor := some "AFD",
    url := some "https://example.org/afd" }

def rawAfdDl : RawOp :=
  { title := some "Afd dated grant", donor := some "AFD",
    url := some "https://example.org/afddl", deadline := some "2024-07-01" }

/-- The two-source scenario of the spec's end-to-end test property. -/
def rawA : RawOp :=
  { title := some "Grant for open data", donor := some "A",
    url := some "https://a/1", deadline := some "2025-03-01" }

def rawB : RawOp :=
  { title := some "Grant for open data", donor := some "A",
    url := some "https://b/1", deadline := some "2025-03-01" }

/-! ## Support lemmas: stable sort -/

theorem sInsert_perm (le : α → α → Bool) (x : α) (l : List α) :
    (sInsert le x l).Perm (x :: l) := by
  induction l with
  | nil => simp [sInsert]
  | cons y l ih =>
    simp only [sInsert]
    by_cases h : le x y = true
    · simp [h]
    · simp only [h, if_neg]
      exact (ih.cons y).trans (List.Perm.swap x y l)

theorem sSort_perm (le : α → α → Bool) (l : List α) : (sSort le l).Perm l := by
  induction l with
  | nil => simp [sSort]
  | cons x l ih =>
    exact (sInsert_perm le x (sSort le l)).trans (ih.cons x)

theorem pairwise_sInsert {le : α → α → Bool}
    (total : ∀ a b, le a b = true ∨ le b a = true)
    (trans : ∀ a b c, le a b = true → le b c = true → le a c = true)
    (x : α) (l : List α) (h : l.Pairwise fun a b => le a b = true) :
    (sInsert le x l).Pairwise fun a b => le a b = true := by
  induction l with
  | nil => simp [sInsert]
  | cons y l ih =>
    rw [List.pairwise_cons] at h
    simp only [sInsert]
    by_cases hxy : le x y = true
    · rw [if_pos hxy, List.pairwise_cons]
      refine ⟨?_, List.pairwise_cons.mpr h⟩
      intro z hz
      rcases List.mem_cons.mp hz with hz | hz
      · exact hz ▸ hxy
      · exact trans x y z hxy (h.1 z hz)
    · rw [if_neg hxy, List.pairwise_cons]
      refine ⟨?_, ih h.2⟩
      intro z hz
      have hz' := (sInsert_perm le x l).mem_iff.mp hz
      rcases List.mem_cons.mp hz' with hz' | hz'
      · rcases total x y with ht | ht
        · exact absurd ht hxy
        · rw [hz']
          exact ht
      · exact h.1 z hz'

theorem pairwise_sSort {le : α → α → Bool}
    (total : ∀ a b, le a b = true ∨ le b a = true)
    (trans : ∀ a b c, le a b = true → le b c = true → le a c = true)
    (l : List α) : (sSort le l).Pairwise fun a b => le a b = true := by
  induction l with
  | nil => simp [sSort]
  | cons x l ih => exact pairwise_sInsert total trans x (sSort le l) ih

/-- The sort comparison is total. -/
theorem sortLe_total (a b : CanonOp) : sortLe a b = true ∨ sortLe b a = true := by
  simp only [sortLe, decide_eq_true_eq]
  rcases Nat.lt_trichotomy (dKeyOf a.deadline) (dKeyOf b.deadline) with h | h | h
  · exact Or.inl (Or.inl h)
  · rcases Int.le_total (pKeyOf a.published_date) (pKeyOf b.published_date) with hp | hp
    · exact Or.inl (Or.inr ⟨h, hp⟩)
    · exact Or.inr (Or.inr ⟨h.symm, hp⟩)
  · exact Or.inr (Or.inl h)

/-- The sort comparison is transitive. -/
theorem sortLe_trans (a b c : CanonOp) (hab : sortLe a b = true)
    (hbc : sortLe b c = true) : sortLe a c = true := by
  simp only [sortLe, decide_eq_true_eq] at *
  rcases hab with hab | ⟨hab, hab'⟩ <;> rcases hbc with hbc | ⟨hbc, hbc'⟩
  · exact Or.inl (hab.trans hbc)
  · exact Or.inl (hbc ▸ hab)
  · exact Or.inl (hab ▸ hbc)
  · exact Or.inr ⟨hab.trans hbc, hab'.trans hbc'⟩

/-! ## Support lemmas: ISO round-trip -/

theorem digitChar_isDigit (x : Nat) (h : x < 10) : (digitChar x).isDigit = true := by
  interval_cases x <;> decide

theorem digitChar_toNat (x : Nat) (h : x < 10) : (digitChar x).toNat = 48 + x := by
  interval_cases x <;> decide

theorem digitChar_ne_dash (x : Nat) : digitChar x ≠ '-' := by
  by_cases h : x < 10
  · interval_cases x <;> decide
  · have : "0123456789".data.getD x '0' = '0' := by
      apply List.getD_eq_default
      simpa using Nat.le_of_not_lt h
    simp only [digitChar, this]
    decide

theorem decDigits_length (k n : Nat) : (decDigits k n).length = k := by
  induction k generalizing n with
  | zero => rfl
  | succ k ih => simp [decDigits, ih]

theorem decDigits_isDigit (k n : Nat) : (decDigits k n).all Char.isDigit = true := by
  induction k generalizing n with
  | zero => rfl
  | succ k ih =>
    simp only [decDigits, List.all_append, ih, List.all_cons, List.all_nil,
      Bool.and_true, Bool.true_and]
    exact digitChar_isDigit _ (Nat.mod_lt _ (by omega))

theorem decDigits_ne_dash (k n : Nat) : ∀ c ∈ decDigits k n, c ≠ '-' := by
  induction k generalizing n with
  | zero => intro c hc; cases hc
  | succ k ih =>
    intro c hc
    rcases List.mem_append.mp hc with hc | hc
    · exact ih (n / 10) c hc
    · rcases List.mem_singleton.mp hc with rfl
      exact digitChar_ne_dash _

theorem decVal_append_digit (a : List Char) (c : Char) :
    decVal (a ++ [c]) = decVal a * 10 + (c.toNat - 48) := by
  simp [decVal, List.foldl_append]

theorem decVal_decDigits (k n : Nat) (h : n < 10 ^ k) : decVal (decDigits k n) = n := by
  induction k generalizing n with
  | zero =>
    interval_cases n
    rfl
  | succ k ih =>
    have hdiv : n / 10 < 10 ^ k := by
      rw [Nat.div_lt_iff_lt_mul (by omega)]
      calc n < 10 ^ (k + 1) := h
        _ = 10 ^ k * 10 := by rw [Nat.pow_succ]
    have hmod : n % 10 < 10 := Nat.mod_lt _ (by omega)
    rw [decDigits, decVal_append_digit, ih _ hdiv, digitChar_toNat _ hmod]
    omega

theorem splitDash_sepfree (a : List Char) (h : ∀ c ∈ a, c ≠ '-') :
    splitDash a = [a] := by
  induction a with
  | nil => rfl
  | cons c cs ih =>
    have hc : c ≠ '-' := h c (List.mem_cons_self c cs)
    have ih' := ih fun x hx => h x (List.mem_cons_of_mem c hx)
    simp only [splitDash, List.foldr_cons] at *
    rw [ih']
    simp [hc]

theorem splitDash_append (a rest : List Char) (h : ∀ c ∈ a, c ≠ '-') :
    splitDash (a ++ '-' :: rest) = a :: splitDash rest := by
  induction a with
  | nil => simp [splitDash]
  | cons c cs ih =>
    have hc : c ≠ '-' := h c (List.mem_cons_self c cs)
    have ih' := ih fun x hx => h x (List.mem_cons_of_mem c hx)
    simp only [List.cons_append, splitDash, List.foldr_cons] at *
    rw [ih']
    simp [hc]

/-- A date within the ISO bounds survives the render/parse round-trip; this
is why the inner re-parse of a stored deadline in the filters, the status
derivation and the sort key can never hit their failure branches. -/
theorem parseDate_isoString (dt : Date) (h1 : 1 ≤ dt.y) (h2 : dt.y ≤ 9999)
    (h3 : 1 ≤ dt.m) (h4 : dt.m ≤ 12) (h5 : 1 ≤ dt.d) (h6 : dt.d ≤ 31) :
    parseDate (isoString dt) = some dt := by
  have hy : dt.y < 10 ^ 4 := by omega
  have hm : dt.m < 10 ^ 2 := by omega
  have hd : dt.d < 10 ^ 2 := by omega
  have hsplit : splitDash (isoString dt).data =
      [decDigits 4 dt.y, decDigits 2 dt.m, decDigits 2 dt.d] := by
    show splitDash
        (decDigits 4 dt.y ++ '-' :: (decDigits 2 dt.m ++ '-' :: decDigits 2 dt.d)) = _
    rw [splitDash_append _ _ (decDigits_ne_dash 4 dt.y),
        splitDash_append _ _ (decDigits_ne_dash 2 dt.m),
        splitDash_sepfree _ (decDigits_ne_dash 2 dt.d)]
  unfold parseDate
  rw [hsplit]
  simp only [parseParts, decDigits_length, decDigits_isDigit,
    decVal_decDigits _ _ hy, decVal_decDigits _ _ hm, decVal_decDigits _ _ hd]
  have hg2 : (decide (1 ≤ dt.y) && decide (dt.y ≤ 9999) && decide (1 ≤ dt.m) &&
      decide (dt.m ≤ 12) && decide (1 ≤ dt.d) && decide (dt.d ≤ 31)) = true := by
    simp only [Bool.and_eq_true, decide_eq_true_eq]
    omega
  simp [hg2]

/-- The bounds that `parseDate` guarantees on every date it returns. -/
theorem parseDate_bounds (s : String) (dt : Date) (h : parseDate s = some dt) :
    1 ≤ dt.y ∧ dt.y ≤ 9999 ∧ 1 ≤ dt.m ∧ dt.m ≤ 12 ∧ 1 ≤ dt.d ∧ dt.d ≤ 31 := by
  unfold parseDate at h
  unfold parseParts at h
  split at h
  · split at h
    · split at h
      · simp only [Option.some.injEq] at h
        rename_i hguard
        simp only [Bool.and_eq_true, decide_eq_true_eq] at hguard
        rw [← h]
        exact ⟨hguard.1.1.1.1.1, hguard.1.1.1.1.2, hguard.1.1.1.2, hguard.1.1.2,
          hguard.1.2, hguard.2⟩
      · exact absurd h (by simp)
    · exact absurd h (by simp)
  · exact absurd h (by simp)

/-- Bounds for a deadline produced by `toIso`. -/
theorem toIso_bounds (s : Option String) (dt : Date) (h : toIso s = some dt) :
    1 ≤ dt.y ∧ dt.y ≤ 9999 ∧ 1 ≤ dt.m ∧ dt.m ≤ 12 ∧ 1 ≤ dt.d ∧ dt.d ≤ 31 := by
  unfold toIso at h
  match s with
  | none => cases h
  | some str =>
    simp only at h
    split at h
    · cases h
    · exact parseDate_bounds str dt h

/-- On any deadline produced by `toIso`, the status derivation reduces to a
plain comparison with the wall-clock date. -/
theorem statusFromDates_toIso (now : Date) (s : Option String) (dt : Date)
    (h : toIso s = some dt) :
    statusFromDates now (some dt) =
      if now.num ≤ dt.num then some "open" else some "closed" := by
  obtain ⟨h1, h2, h3, h4, h5, h6⟩ := toIso_bounds s dt h
  show (match parseDate (isoString dt) with
    | none => none
    | some dd =>
      if now.num < dd.num then some "open"
      else if dd.num = now.num then some "open"
      else some "closed") = _
  rw [parseDate_isoString dt h1 h2 h3 h4 h5 h6]
  show (if now.num < dt.num then some "open"
    else if dt.num = now.num then some "open"
    else some "closed") = _
  rcases Nat.lt_trichotomy now.num dt.num with hlt | heq | hgt
  · rw [if_pos hlt, if_pos (Nat.le_of_lt hlt)]
  · rw [if_neg (by omega), if_pos heq.symm, if_pos (Nat.le_of_eq heq)]
  · rw [if_neg (by omega), if_neg (by omega), if_neg (by omega)]

/-! ## Support lemmas: single steps of the record loop -/

/-- A record whose title cleans to empty leaves the loop state unchanged. -/
theorem normStep_junk (fo rd : Bool) (today now : Date) (st : NormState) (r : RawOp)
    (h : cleanTitle (r.title.getD "") = "") :
    normStep fo rd today now st r = st := by
  simp [normStep, h]

/-- A record whose non-empty URL has already been seen leaves the loop state
unchanged, whatever its remaining fields are. -/
theorem normStep_urlDup (fo rd : Bool) (today now : Date) (st : NormState) (r : RawOp)
    (hu : pyStrip (r.url.getD "") ≠ "")
    (hmem : st.seenUrls.contains (pyStrip (r.url.getD "")) = true) :
    normStep fo rd today now st r = st := by
  have hmem' : pyStrip (r.url.getD "") ∈ st.seenUrls := by simpa using hmem
  by_cases ht : cleanTitle (r.title.getD "") = ""
  · simp [normStep, ht]
  · simp [normStep, ht, hu, hmem']

/-- A surviving first record on the empty state registers its URL, its key
and its canonical record. -/
theorem normStep_first (fo rd : Bool) (today now : Date) (r : RawOp)
    (ht : cleanTitle (r.title.getD "") ≠ "")
    (hu : pyStrip (r.url.getD "") ≠ "")
    (hkept : keptByFilters rd fo today (toIso r.deadline) = true) :
    normStep fo rd today now ⟨[], [], []⟩ r =
      ⟨[pyStrip (r.url.getD "")], [keyOf r], [canonOf now r]⟩ := by
  simp [normStep, ht, hu, hkept]

/-- A first record that fails the record-level filters still registers its
non-empty URL, and nothing else. -/
theorem normStep_first_filtered (fo rd : Bool) (today now : Date) (r : RawOp)
    (ht : cleanTitle (r.title.getD "") ≠ "")
    (hu : pyStrip (r.url.getD "") ≠ "")
    (hf : keptByFilters rd fo today (toIso r.deadline) = false) :
    normStep fo rd today now ⟨[], [], []⟩ r =
      ⟨[pyStrip (r.url.getD "")], [], []⟩ := by
  simp [normStep, ht, hu, hf]

/-- A surviving first record on the empty state, URL present or not. -/
theorem normStep_first_kept (fo rd : Bool) (today now : Date) (r : RawOp)
    (ht : cleanTitle (r.title.getD "") ≠ "")
    (hkept : keptByFilters rd fo today (toIso r.deadline) = true) :
    normStep fo rd today now ⟨[], [], []⟩ r =
      ⟨if pyStrip (r.url.getD "") ≠ "" then [pyStrip (r.url.getD "")] else [],
       [keyOf r], [canonOf now r]⟩ := by
  by_cases hu : pyStrip (r.url.getD "") = "" <;> simp [normStep, ht, hu, hkept]

/-- A record whose dedup key is already registered contributes no output,
whatever else happens to it. -/
theorem normStep_out_keyDup (fo rd : Bool) (today now : Date) (st : NormState)
    (r : RawOp) (hk : st.seenKeys.contains (keyOf r) = true) :
    (normStep fo rd today now st r).out = st.out := by
  have hk' : keyOf r ∈ st.seenKeys := by simpa using hk
  by_cases ht : cleanTitle (r.title.getD "") = ""
  · simp [normStep, ht]
  · by_cases hu : pyStrip (r.url.getD "") = ""
    · by_cases hf : keptByFilters rd fo today (toIso r.deadline) <;>
        simp [normStep, ht, hu, hf, hk']
    · by_cases hmem : pyStrip (r.url.getD "") ∈ st.seenUrls
      · simp [normStep, ht, hu, hmem]
      · by_cases hf : keptByFilters rd fo today (toIso r.deadline) <;>
          simp [normStep, ht, hu, hmem, hf, hk']

/-! ## Sanity checks of the embedding -/

set_option maxRecDepth 100000 in
/-- Sanity check of the SHA-1 embedding against the standard test vector. -/
theorem sha1Hex_abc : sha1Hex "abc" = "a9993e364706816aba3e25717850c26c9cd0d89d" := by
  decide

/-! ## Claim theorems -/

set_option maxRecDepth 100000 in
/-- C3: under `futureOnly`, a parseable past deadline is dropped and a
parseable future deadline is kept, as the claim says; but a record whose
deadline string fails to parse is KEPT with a null deadline, contradicting
the claim (and the source's own `# if deadline unparsable, drop` comment):
`_to_iso` has already turned the unparseable string into `None`, so the
`if future_only and deadline:` guard skips the drop logic entirely. -/
theorem c3_unparseable_deadline_kept :
    (normalize true false (some today0) today0 [rawPast, rawFuture, rawSoonish]).map
        (fun c => (c.title, c.deadline)) =
      [("Future grant", some ⟨2024, 7, 1⟩), ("Soonish grant", (none : Option Date))] := by
  decide

set_option maxRecDepth 100000 in
/-- C10: `normalize` is not a function of its arguments alone once the wall
clock is made explicit: with identical records and identical `today_utc`,
changing only the wall-clock date flips the derived `status` from `open` to
`closed`, while the `futureOnly` judgment keeps using `today_utc` (the
record survives in both runs, but is dropped when `today_utc` is absent and
the late wall clock takes its place). -/
theorem c10_wall_clock_status :
    (normalize true false (some today0) ⟨2024, 6, 1⟩ [rawMid]).map (fun c => c.status) =
        [some "open"] ∧
    (normalize true false (some today0) ⟨2024, 7, 1⟩ [rawMid]).map (fun c => c.status) =
        [some "closed"] ∧
    normalize true false none ⟨2024, 7, 1⟩ [rawMid] = [] := by
  refine ⟨by decide, by decide, by decide⟩

set_option maxRecDepth 100000 in
/-- C4 counterexample: two raw records with identical `(donor, url)` and a
non-empty URL for which normalization yields zero canonical records, not
exactly one: both titles are scraper junk (`nav.css`), so both records are
discarded before the URL dedup can collapse them. -/
theorem c4_counterexample :
    (normalize false false none today0 [rawJunk, rawJunk]).length ≠ 1 ∧
    (normalize false false none today0 [rawJunk, rawJunk]).length = 0 := by
  refine ⟨by decide, by decide⟩

/-- C4 amended: for a two-record batch, identical non-empty `(donor, url)`
or identical `(donor, normalized title, deadline)` yields exactly one
canonical record, provided the first record's title survives cleaning and
it passes the record-level filters (otherwise the batch can normalize to
zero records). -/
theorem c4_amended :
    (∀ (r1 r2 : RawOp) (fo rd : Bool) (tu : Option Date) (now : Date),
      r1.donor = r2.donor →
      pyStrip (r1.url.getD "") = pyStrip (r2.url.getD "") →
      pyStrip (r1.url.getD "") ≠ "" →
      cleanTitle (r1.title.getD "") ≠ "" →
      keptByFilters rd fo (tu.getD now) (toIso r1.deadline) = true →
      (normalize fo rd tu now [r1, r2]).length = 1) ∧
    (∀ (r1 r2 : RawOp) (fo rd : Bool) (tu : Option Date) (now : Date),
      r1.donor = r2.donor →
      cleanTitle (r1.title.getD "") = cleanTitle (r2.title.getD "") →
      cleanTitle (r1.title.getD "") ≠ "" →
      toIso r1.deadline = toIso r2.deadline →
      keptByFilters rd fo (tu.getD now) (toIso r1.deadline) = true →
      (normalize fo rd tu now [r1, r2]).length = 1) := by
  constructor
  · intro r1 r2 fo rd tu now hdon hurl hu ht hkept
    have hu2 : pyStrip (r2.url.getD "") ≠ "" := hurl ▸ hu
    show (sSort sortLe ((normStep fo rd (tu.getD now) now
      (normStep fo rd (tu.getD now) now ⟨[], [], []⟩ r1) r2).out)).length = 1
    rw [normStep_first fo rd (tu.getD now) now r1 ht hu hkept]
    rw [normStep_urlDup fo rd (tu.getD now) now _ r2 hu2 (by rw [← hurl]; simp)]
    simp [sSort, sInsert]
  · intro r1 r2 fo rd tu now hdon htitle ht hdl hkept
    have hkeq : keyOf r2 = keyOf r1 := by
      simp [keyOf, donorOf, ← hdon, ← htitle, ← hdl]
    show (sSort sortLe ((normStep fo rd (tu.getD now) now
      (normStep fo rd (tu.getD now) now ⟨[], [], []⟩ r1) r2).out)).length = 1
    rw [normStep_first_kept fo rd (tu.getD now) now r1 ht hkept]
    rw [normStep_out_keyDup fo rd (tu.getD now) now _ r2 (by simp [hkeq])]
    simp [sSort, sInsert]

set_option maxRecDepth 100000 in
/-- C4 witness: the spec's own end-to-end pair (same donor and title and
deadline, different URLs) collapses to one record, and so does an identical
pair; the hypotheses of the amended theorem hold at these inputs. -/
theorem c4_witness :
    (rawA.donor = rawA.donor ∧ pyStrip (rawA.url.getD "") ≠ "" ∧
      cleanTitle (rawA.title.getD "") ≠ "" ∧
      keptByFilters false false today0 (toIso rawA.deadline) = true ∧
      (normalize false false none today0 [rawA, rawA]).length = 1) ∧
    (rawA.donor = rawB.donor ∧
      cleanTitle (rawA.title.getD "") = cleanTitle (rawB.title.getD "") ∧
      toIso rawA.deadline = toIso rawB.deadline ∧
      (normalize false false none today0 [rawA, rawB]).length = 1) :=
  ⟨⟨rfl, by decide, by decide, by decide,
    c4_amended.1 rawA rawA false false none today0 rfl rfl (by decide) (by decide)
      (by decide)⟩,
   ⟨by decide, by decide, by decide,
    c4_amended.2 rawA rawB false false none today0 (by decide) (by decide) (by decide)
      (by decide) (by decide)⟩⟩

set_option maxRecDepth 100000 in
/-- C5 counterexample: with `futureOnly` and today 2024-06-01, the
past-deadline record `rawPast` is removed by the filter but has already
registered its URL, so the later future-deadline record `rawBeta` with the
same URL is dropped too — alone, `rawBeta` would have been kept. -/
theorem c5_counterexample :
    normalize true false (some today0) today0 [rawPast, rawBeta] = [] ∧
    (normalize true false (some today0) today0 [rawBeta]).map (fun c => c.title) =
      ["Beta grant"] := by
  refine ⟨by decide, by decide⟩

/-- C5 amended: URL-level dedup is interleaved with the per-record pass and
runs before the record-level filters: a first record that fails the filters
still registers its non-empty URL, so any later record with the same URL is
dropped and the batch normalizes to nothing. -/
theorem c5_amended :
    ∀ (r1 r2 : RawOp) (fo rd : Bool) (tu : Option Date) (now : Date),
      cleanTitle (r1.title.getD "") ≠ "" →
      pyStrip (r1.url.getD "") = pyStrip (r2.url.getD "") →
      pyStrip (r1.url.getD "") ≠ "" →
      keptByFilters rd fo (tu.getD now) (toIso r1.deadline) = false →
      normalize fo rd tu now [r1, r2] = [] := by
  intro r1 r2 fo rd tu now ht hurl hu hf
  have hu2 : pyStrip (r2.url.getD "") ≠ "" := hurl ▸ hu
  show sSort sortLe ((normStep fo rd (tu.getD now) now
    (normStep fo rd (tu.getD now) now ⟨[], [], []⟩ r1) r2).out) = []
  rw [normStep_first_filtered fo rd (tu.getD now) now r1 ht hu hf]
  rw [normStep_urlDup fo rd (tu.getD now) now _ r2 hu2 (by rw [← hurl]; simp)]
  rfl

set_option maxRecDepth 100000 in
/-- C5 witness: the amended theorem applied to the concrete pair of the
counterexample, with its hypotheses discharged there. -/
theorem c5_witness :
    cleanTitle (rawPast.title.getD "") ≠ "" ∧
    pyStrip (rawPast.url.getD "") = pyStrip (rawBeta.url.getD "") ∧
    pyStrip (rawPast.url.getD "") ≠ "" ∧
    keptByFilters false true today0 (toIso rawPast.deadline) = false ∧
    normalize true false (some today0) today0 [rawPast, rawBeta] = [] :=
  ⟨by decide, by decide, by decide, by decide,
   c5_amended rawPast rawBeta true false (some today0) today0 (by decide) (by decide)
     (by decide) (by decide)⟩

set_option maxRecDepth 100000 in
/-- C6 counterexample: a surviving record with no connector status and no
deadline gets status `None`, not `"open"` as the claim states
(`_status_from_dates` returns `None` for an absent deadline). -/
theorem c6_counterexample :
    (normalize false false none today0 [rawNoDeadline]).map (fun c => c.status) =
      [(none : Option String)] ∧
    (none : Option String) ≠ some "open" := by
  refine ⟨by decide, by decide⟩

/-- C6 amended: the canonical status is the connector-supplied status when
one is present (non-empty); otherwise it is `open` when the deadline parses
to a date on or after the wall-clock date, `closed` when strictly before,
and `None` when the deadline is absent or unparseable. -/
theorem c6_amended :
    ∀ (r : RawOp) (fo rd : Bool) (tu : Option Date) (now : Date),
      cleanTitle (r.title.getD "") ≠ "" →
      keptByFilters rd fo (tu.getD now) (toIso r.deadline) = true →
      (normalize fo rd tu now [r]).map (fun c => c.status) =
        [match r.status with
         | some s =>
           if s ≠ "" then some s
           else
             match toIso r.deadline with
             | none => none
             | some dl => if now.num ≤ dl.num then some "open" else some "closed"
         | none =>
           match toIso r.deadline with
           | none => none
           | some dl => if now.num ≤ dl.num then some "open" else some "closed"] := by
  intro r fo rd tu now ht hkept
  show ((sSort sortLe ((normStep fo rd (tu.getD now) now ⟨[], [], []⟩ r).out)).map
    (fun c => c.status)) = _
  rw [normStep_first_kept fo rd (tu.getD now) now r ht hkept]
  show [(canonOf now r).status] = _
  rcases hdl : toIso r.deadline with _ | dl
  · cases hst : r.status <;> simp [canonOf, statusFromDates, hdl, hst]
  · have hsd := statusFromDates_toIso now r.deadline dl hdl
    cases hst : r.status <;> simp [canonOf, hdl, hst, hsd]

set_option maxRecDepth 100000 in
/-- C6 witness: the amended theorem at a concrete surviving record with no
connector status and a future deadline, whose status comes out `open`. -/
theorem c6_witness :
    cleanTitle (rawFuture.title.getD "") ≠ "" ∧
    keptByFilters false false today0 (toIso rawFuture.deadline) = true ∧
    (normalize false false none today0 [rawFuture]).map (fun c => c.status) =
      [match rawFuture.status with
       | some s =>
         if s ≠ "" then some s
         else
           match toIso rawFuture.deadline with
           | none => none
           | some dl => if today0.num ≤ dl.num then some "open" else some "closed"
       | none =>
         match toIso rawFuture.deadline with
         | none => none
         | some dl => if today0.num ≤ dl.num then some "open" else some "closed"] :=
  ⟨by decide, by decide,
   c6_amended rawFuture false false none today0 (by decide) (by decide)⟩

set_option maxRecDepth 100000 in
/-- C7 counterexample: a record with no deadline is not placed last when a
record carrying the literal deadline 9999-12-31 is present: the missing
deadline is replaced by `datetime.max.date()`, the two keys tie, and the
published-date tiebreak puts the deadline-less record first. -/
theorem c7_counterexample :
    (normalize false false none today0 [rawMax, rawNull]).map (fun c => c.deadline) =
      [(none : Option Date), some ⟨9999, 12, 31⟩] := by
  decide

set_option maxRecDepth 100000 in
/-- C7 amended: the output of `normalize` is always sorted by ascending
deadline key — a missing deadline is treated as the maximum date
9999-12-31, so deadline-less records sort last except against that literal
date — with ties broken by descending published date, a missing published
date being treated as the minimum date 0001-01-01; the claim's three-record
example holds as stated. -/
theorem c7_amended :
    (∀ (fo rd : Bool) (tu : Option Date) (now : Date) (rs : List RawOp),
      (normalize fo rd tu now rs).Pairwise fun a b =>
        dKeyOf a.deadline < dKeyOf b.deadline ∨
        (dKeyOf a.deadline = dKeyOf b.deadline ∧
         pKeyOf a.published_date ≤ pKeyOf b.published_date)) ∧
    (normalize false false none today0 [rawFuture, rawMid, rawNoDeadline]).map
        (fun c => c.deadline) =
      [some ⟨2024, 6, 15⟩, some ⟨2024, 7, 1⟩, (none : Option Date)] := by
  constructor
  · intro fo rd tu now rs
    show (sSort sortLe _).Pairwise _
    refine (pairwise_sSort sortLe_total sortLe_trans _).imp ?_
    intro a b h
    simpa [sortLe] using h
  · decide

set_option maxRecDepth 100000 in
/-- C8 counterexample: an amount string with a recognized currency token
and no numeric token does not yield all-null: the currency is kept. -/
theorem c8_counterexample :
    normAmount (some "EUR TBD") = (none, none, some "EUR") ∧
    (normAmount (some "EUR TBD")).2.2 ≠ none := by
  refine ⟨by decide, by decide⟩

/-- C8 amended: the amount parser is total (it is a plain function of its
input); with zero numeric tokens it returns null bounds but still reports
the extracted currency when one is found; with exactly one numeric token
the returned minimum and maximum are equal. -/
theorem c8_amended :
    ∀ s : String,
      (numTokens s.data = [] →
        normAmount (some s) = (none, none, extractCurrency s)) ∧
      (∀ t, numTokens s.data = [t] →
        (normAmount (some s)).1 = (normAmount (some s)).2.1) := by
  intro s
  constructor
  · intro h0
    by_cases hs : s = ""
    · subst hs
      decide
    · simp [normAmount, hs, h0]
  · intro t h1
    have hs : s ≠ "" := by
      intro he
      subst he
      simp [numTokens, numAux] at h1
    rcases hf : pyFloat t with _ | v <;> simp [normAmount, hs, h1, hf]

set_option maxRecDepth 100000 in
/-- C8 witness: the amended theorem at two concrete inputs, one with a
currency and no numbers, one with a single number. -/
theorem c8_witness :
    (numTokens "EUR TBD".data = [] ∧
      normAmount (some "EUR TBD") = (none, none, extractCurrency "EUR TBD")) ∧
    (numTokens "EUR 300000".data = ["300000".data] ∧
      (normAmount (some "EUR 300000")).1 = (normAmount (some "EUR 300000")).2.1) :=
  ⟨⟨by decide, (c8_amended "EUR TBD").1 (by decide)⟩,
   ⟨by decide, (c8_amended "EUR 300000").2 "300000".data (by decide)⟩⟩

set_option maxRecDepth 100000 in
/-- C1 counterexample: the canonical `id` of a run's single record is the
truncated fingerprint `53747e1c5b68bafe`, and even with precisely that
string in the persisted ledger the driver still counts the record as new:
the ledger is keyed by the driver's separate `_sig` fingerprint, not by the
canonical `id`. -/
theorem c1_counterexample :
    (normalize false false none today0 [rawNoDeadline]).map (fun c => c.id) =
      ["53747e1c5b68bafe"] ∧
    (runMain false false 14 today0 [rawNoDeadline]
        ["53747e1c5b68bafe"] true).newItems.length = 1 := by
  refine ⟨by decide, by decide⟩

/-- C1 amended: for a surviving record with no connector-supplied `id`, the
canonical `id` is `sha1(donor :: url-or-title :: deadline)` truncated to 16
hex characters (normalizing the same record twice trivially reproduces it,
the embedding being a function); but the key checked against the persisted
seen-ledger is the driver's separate `_sig` fingerprint: an item is new
exactly when its `_sig` is absent from the ledger. -/
theorem c1_amended :
    (∀ (r : RawOp) (fo rd : Bool) (tu : Option Date) (now : Date),
      cleanTitle (r.title.getD "") ≠ "" →
      keptByFilters rd fo (tu.getD now) (toIso r.deadline) = true →
      r.id.getD "" = "" →
      (normalize fo rd tu now [r]).map (fun c => c.id) =
        [(sha1Hex (String.intercalate "::"
          (([donorOf r,
             if pyStrip (r.url.getD "") ≠ "" then pyStrip (r.url.getD "")
             else cleanTitle (r.title.getD ""),
             isoOrEmpty (toIso r.deadline)].filter fun p => p ≠ "").map pyStrip))).take 16]) ∧
    (∀ (fo rd : Bool) (ml : Nat) (now : Date) (raw : List RawOp) (st : List String)
        (pub : Bool) (op : CanonOp),
      op ∈ (runMain fo rd ml now raw st pub).newItems ↔
        op ∈ (runMain fo rd ml now raw st pub).normalized ∧
          st.contains (sigOf op) = false) := by
  constructor
  · intro r fo rd tu now ht hkept hid
    show ((sSort sortLe ((normStep fo rd (tu.getD now) now ⟨[], [], []⟩ r).out)).map
      (fun c => c.id)) = _
    rw [normStep_first_kept fo rd (tu.getD now) now r ht hkept]
    show [(canonOf now r).id] = _
    simp [canonOf, pySha1Trunc, hid]
  · intro fo rd ml now raw st pub op
    cases h0 : raw.isEmpty with
    | true => simp [runMain, h0]
    | false =>
      cases h1 : (normalizedOf fo rd now raw).isEmpty with
      | true =>
        have h1' : normalizedOf fo rd now raw = [] := List.isEmpty_iff.mp h1
        simp [runMain, h0, h1, h1']
      | false =>
        cases h2 : (newItemsOf fo rd now raw st).isEmpty with
        | true =>
          have h2' : newItemsOf fo rd now raw st = [] := List.isEmpty_iff.mp h2
          simp only [runMain, h0, h1, h2, Bool.false_eq_true, if_false, if_true,
            List.not_mem_nil, false_iff, not_and]
          intro hmem hcon
          have hni : op ∈ newItemsOf fo rd now raw st := by
            unfold newItemsOf
            exact List.mem_filter.mpr ⟨hmem, by simpa using hcon⟩
          rw [h2'] at hni
          cases hni
        | false =>
          cases pub <;>
            simp only [runMain, h0, h1, h2, Bool.false_eq_true, if_false, if_true] <;>
            simp [newItemsOf, List.mem_filter]

set_option maxRecDepth 100000 in
/-- C1 witness: the amended theorem's first part at the concrete record of
the counterexample, with its hypotheses discharged there. -/
theorem c1_witness :
    cleanTitle (rawNoDeadline.title.getD "") ≠ "" ∧
    keptByFilters false false today0 (toIso rawNoDeadline.deadline) = true ∧
    rawNoDeadline.id.getD "" = "" ∧
    (normalize false false none today0 [rawNoDeadline]).map (fun c => c.id) =
      [(sha1Hex (String.intercalate "::"
        (([donorOf rawNoDeadline,
           if pyStrip (rawNoDeadline.url.getD "") ≠ "" then
             pyStrip (rawNoDeadline.url.getD "")
           else cleanTitle (rawNoDeadline.title.getD ""),
           isoOrEmpty (toIso rawNoDeadline.deadline)].filter fun p => p ≠ "").map
            pyStrip))).take 16] :=
  ⟨by decide, by decide, by decide,
   c1_amended.1 rawNoDeadline false false none today0 (by decide) (by decide) (by decide)⟩

/-- C2: a fingerprint is added to the persisted ledger exactly when the
digest was delivered: a run whose publish raises leaves the ledger
bit-for-bit unchanged (no `save` happens), after a successful publish the
ledger holds precisely the old entries plus the new items' fingerprints,
and re-running after a failed publish faces the same new items again. -/
theorem c2_publish_gate :
    ∀ (fo rd : Bool) (ml : Nat) (now : Date) (raw : List RawOp) (st : List String),
      (runMain fo rd ml now raw st false).finalSeen = st ∧
      (runMain fo rd ml now raw st false).delivered = false ∧
      (∀ fp, fp ∈ (runMain fo rd ml now raw st true).finalSeen ↔
        fp ∈ st ∨ fp ∈ (runMain fo rd ml now raw st true).newItems.map sigOf) ∧
      runMain fo rd ml now raw ((runMain fo rd ml now raw st false).finalSeen) true =
        runMain fo rd ml now raw st true := by
  intro fo rd ml now raw st
  have hfail : (runMain fo rd ml now raw st false).finalSeen = st ∧
      (runMain fo rd ml now raw st false).delivered = false := by
    cases h0 : raw.isEmpty with
    | true => simp [runMain, h0]
    | false =>
      cases h1 : (normalizedOf fo rd now raw).isEmpty with
      | true => simp [runMain, h0, h1]
      | false =>
        cases h2 : (newItemsOf fo rd now raw st).isEmpty with
        | true => simp [runMain, h0, h1, h2]
        | false => simp [runMain, h0, h1, h2]
  refine ⟨hfail.1, hfail.2, ?_, by rw [hfail.1]⟩
  intro fp
  cases h0 : raw.isEmpty with
  | true => simp [runMain, h0]
  | false =>
    cases h1 : (normalizedOf fo rd now raw).isEmpty with
    | true => simp [runMain, h0, h1]
    | false =>
      cases h2 : (newItemsOf fo rd now raw st).isEmpty with
      | true => simp [runMain, h0, h1, h2]
      | false =>
        simp only [runMain, h0, h1, h2, Bool.false_eq_true, if_false, if_true,
          List.mem_append, List.mem_filter]
        by_cases hfp : fp ∈ st <;> simp [hfp]

/-- C9: after normalization the driver unconditionally removes every AFD or
AfDB record lacking a deadline, whatever the configuration: every record in
the run's post-rule set with one of those donors has a deadline, the new
items are drawn from that set, and everything newly persisted to the ledger
is a fingerprint of one of the new items. -/
theorem c9_hard_afd_rule :
    ∀ (fo rd : Bool) (ml : Nat) (now : Date) (raw : List RawOp) (st : List String)
      (pub : Bool),
      (∀ op ∈ (runMain fo rd ml now raw st pub).normalized,
        (op.donor = "AFD" ∨ op.donor = "AfDB") → op.deadline ≠ none) ∧
      (∀ op ∈ (runMain fo rd ml now raw st pub).newItems,
        op ∈ (runMain fo rd ml now raw st pub).normalized) ∧
      (∀ fp ∈ (runMain fo rd ml now raw st pub).finalSeen,
        fp ∈ st ∨ fp ∈ (runMain fo rd ml now raw st pub).newItems.map sigOf) := by
  intro fo rd ml now raw st pub
  cases h0 : raw.isEmpty with
  | true => simp [runMain, h0]
  | false =>
    have hnorm : (runMain fo rd ml now raw st pub).normalized =
        normalizedOf fo rd now raw := by
      cases h1 : (normalizedOf fo rd now raw).isEmpty with
      | true => simp [runMain, h0, h1]
      | false =>
        cases h2 : (newItemsOf fo rd now raw st).isEmpty with
        | true => simp [runMain, h0, h1, h2]
        | false => cases pub <;> simp [runMain, h0, h1, h2]
    have hnew : (runMain fo rd ml now raw st pub).newItems = [] ∨
        (runMain fo rd ml now raw st pub).newItems = newItemsOf fo rd now raw st := by
      cases h1 : (normalizedOf fo rd now raw).isEmpty with
      | true => left; simp [runMain, h0, h1]
      | false =>
        cases h2 : (newItemsOf fo rd now raw st).isEmpty with
        | true => left; simp [runMain, h0, h1, h2]
        | false => right; cases pub <;> simp [runMain, h0, h1, h2]
    have hcase : (runMain fo rd ml now raw st pub).finalSeen = st ∨
        ((runMain fo rd ml now raw st pub).finalSeen =
          st ++ ((newItemsOf fo rd now raw st).map sigOf).filter
            (fun s => !(st.contains s)) ∧
         (runMain fo rd ml now raw st pub).newItems =
           newItemsOf fo rd now raw st) := by
      cases h1 : (normalizedOf fo rd now raw).isEmpty with
      | true => left; simp [runMain, h0, h1]
      | false =>
        cases h2 : (newItemsOf fo rd now raw st).isEmpty with
        | true => left; simp [runMain, h0, h1, h2]
        | false =>
          cases pub with
          | false => left; simp [runMain, h0, h1, h2]
          | true => right; constructor <;> simp [runMain, h0, h1, h2]
    refine ⟨?_, ?_, ?_⟩
    · intro op hop hdon
      rw [hnorm] at hop
      unfold normalizedOf at hop
      have hb : afdbDrop op = false := by
        have := (List.mem_filter.mp hop).2
        simpa using this
      intro heq
      have hdrop : afdbDrop op = true := by
        rcases hdon with h | h <;> simp [afdbDrop, h, heq]
      rw [hdrop] at hb
      cases hb
    · intro op hop
      rcases hnew with h | h
      · rw [h] at hop
        cases hop
      · rw [h] at hop
        rw [hnorm]
        unfold newItemsOf at hop
        exact (List.mem_filter.mp hop).1
    · intro fp hfp
      rcases hcase with h | ⟨hs, hn⟩
      · rw [h] at hfp
        exact Or.inl hfp
      · rw [hs] at hfp
        rcases List.mem_append.mp hfp with h' | h'
        · exact Or.inl h'
        · right
          rw [hn]
          exact (List.mem_filter.mp h').1

set_option maxRecDepth 100000 in
/-- C9 witness: in a concrete run containing a deadline-less AFD record and
a dated AFD record, the theorem applies to the dated record (which is in
the post-rule set) and yields that it indeed has a deadline. -/
theorem c9_witness :
    canonOf today0 rawAfdDl ∈
      (runMain false false 14 today0 [rawAfd, rawAfdDl] [] true).normalized ∧
    ((canonOf today0 rawAfdDl).donor = "AFD" ∨ (canonOf today0 rawAfdDl).donor = "AfDB") ∧
    (canonOf today0 rawAfdDl).deadline ≠ none :=
  ⟨by decide, by decide,
   (c9_hard_afd_rule false false 14 today0 [rawAfd, rawAfdDl] [] true).1
     (canonOf today0 rawAfdDl) (by decide) (by decide)⟩

end Anansi
